import Mathlib

/-!
Verification of the pizza assignment optimizer (`webapp/solver.py`).

The solver builds a 0-1 integer program assigning people to pizzas and
selecting toppings, submits it to an external MILP engine, and materializes
the solution into pizza records.  We embed the preference resolution
(`_build_prefs`), the constraint system of both `solve_whole` and
`solve_half` as a feasibility predicate over candidate variable
assignments, the objective expressions, the dispatch/validation logic of
`solve`, and the solution extraction, and prove the spec's claimed
invariants about them.
-/

/-- Preference constants of `PersonToppingPreference` (models.py). -/
def ALLERGY : Int := -2

/-- DISLIKE preference value. -/
def DISLIKE : Int := -1

/-- NEUTRAL preference value. -/
def NEUTRAL : Int := 0

/-- LIKE preference value. -/
def LIKE : Int := 1

/-- A person, as the solver sees it: a database id and the
`unrated_is_dislike` flag. -/
structure Person where
  id : Nat
  unrated_is_dislike : Bool
deriving DecidableEq, Repr

/-- The per-person default preference
(`DISLIKE if person.unrated_is_dislike else NEUTRAL`, solver.py line 59). -/
def defaultPref (person : Person) : Int :=
  if person.unrated_is_dislike then DISLIKE else NEUTRAL

/-- Resolution of one (person, topping) pair:
`existing.get(key, default)` (solver.py line 62). -/
def resolvePref (person : Person) (topping_id : Nat)
    (existing : Nat → Nat → Option Int) : Int :=
  (existing person.id topping_id).getD (defaultPref person)

/-- `_build_prefs(people, toppings)` (solver.py lines 38-64): the double
loop over `enumerate(people)` and `enumerate(toppings)` producing the
entry `((p_idx, t_idx), value)` for every pair.  `existing` abstracts the
single DB query keyed by `(person.id, topping.id)`. -/
def _build_prefs (people : List Person) (toppings : List Nat)
    (existing : Nat → Nat → Option Int) : List ((Nat × Nat) × Int) :=
  ((List.range people.length).map (fun p =>
    (List.range toppings.length).map (fun t =>
      ((p, t),
        resolvePref (people.getD p ⟨0, false⟩) (toppings.getD t 0) existing)))).flatten

/-- 0/1 value of a binary decision variable. -/
def indic (b : Bool) : Int := if b then 1 else 0

/-- `math.ceil(P / K)` for natural numbers (K > 0). -/
def ceil_div (a b : Nat) : Nat := (a + b - 1) / b

/-- Candidate values for the decision variables of `solve_whole`:
`x[p,k]` (person p on pizza k), `tv[t,k]` (topping t on pizza k), and the
linearization variables `z[p,t,k]`. -/
structure WholeSol where
  x : Nat → Nat → Bool
  tv : Nat → Nat → Bool
  z : Nat → Nat → Nat → Bool

/-- Candidate values for the decision variables of `solve_half`. -/
structure HalfSol where
  x_left : Nat → Nat → Bool
  x_right : Nat → Nat → Bool
  t_left : Nat → Nat → Bool
  t_right : Nat → Nat → Bool
  is_split : Nat → Bool
  z_left : Nat → Nat → Nat → Bool
  z_right : Nat → Nat → Nat → Bool

/-- The hard constraints of the whole-pizza model
(solver.py lines 123-152), evaluated on a candidate solution:
1. each person on exactly one pizza;
2. allergy exclusion `x[p,k] + tv[t,k] ≤ 1`;
3. at most 3 toppings per pizza;
4. each pizza gets between `P // K` and `ceil(P / K)` people;
5. the three linearization inequalities for `z[p,t,k]`. -/
def wholeFeasible (P T K : Nat) (prefs : Nat → Nat → Int) (s : WholeSol) : Prop :=
  (∀ p < P, (∑ k in Finset.range K, indic (s.x p k)) = 1) ∧
  (∀ p < P, ∀ t < T, prefs p t = ALLERGY →
      ∀ k < K, indic (s.x p k) + indic (s.tv t k) ≤ 1) ∧
  (∀ k < K, (∑ t in Finset.range T, indic (s.tv t k)) ≤ 3) ∧
  (∀ k < K, ((P / K : Nat) : Int) ≤ (∑ p in Finset.range P, indic (s.x p k)) ∧
      (∑ p in Finset.range P, indic (s.x p k)) ≤ ((ceil_div P K : Nat) : Int)) ∧
  (∀ p < P, ∀ t < T, ∀ k < K,
      indic (s.z p t k) ≤ indic (s.x p k) ∧
      indic (s.z p t k) ≤ indic (s.tv t k) ∧
      indic (s.x p k) + indic (s.tv t k) - 1 ≤ indic (s.z p t k))

/-- The hard constraints of the half-and-half model
(solver.py lines 221-264), evaluated on a candidate solution:
1. each person on exactly one half of exactly one pizza;
2. right half only if split (`x_right ≤ is_split`, `t_right ≤ is_split`);
3. allergy exclusion on both halves;
4. at most 3 toppings per half;
5. each pizza gets between `P // K` and `ceil(P / K)` people in total;
6. the linearization inequalities for both halves. -/
def halfFeasible (P T K : Nat) (prefs : Nat → Nat → Int) (s : HalfSol) : Prop :=
  (∀ p < P, (∑ k in Finset.range K,
      (indic (s.x_left p k) + indic (s.x_right p k))) = 1) ∧
  (∀ k < K, (∀ p < P, indic (s.x_right p k) ≤ indic (s.is_split k)) ∧
      (∀ t < T, indic (s.t_right t k) ≤ indic (s.is_split k))) ∧
  (∀ p < P, ∀ t < T, prefs p t = ALLERGY → ∀ k < K,
      indic (s.x_left p k) + indic (s.t_left t k) ≤ 1 ∧
      indic (s.x_right p k) + indic (s.t_right t k) ≤ 1) ∧
  (∀ k < K, (∑ t in Finset.range T, indic (s.t_left t k)) ≤ 3 ∧
      (∑ t in Finset.range T, indic (s.t_right t k)) ≤ 3) ∧
  (∀ k < K,
      ((P / K : Nat) : Int) ≤ (∑ p in Finset.range P,
          (indic (s.x_left p k) + indic (s.x_right p k))) ∧
      (∑ p in Finset.range P,
          (indic (s.x_left p k) + indic (s.x_right p k))) ≤
        ((ceil_div P K : Nat) : Int)) ∧
  (∀ p < P, ∀ t < T, ∀ k < K,
      (indic (s.z_left p t k) ≤ indic (s.x_left p k) ∧
       indic (s.z_left p t k) ≤ indic (s.t_left t k) ∧
       indic (s.x_left p k) + indic (s.t_left t k) - 1 ≤ indic (s.z_left p t k)) ∧
      (indic (s.z_right p t k) ≤ indic (s.x_right p k) ∧
       indic (s.z_right p t k) ≤ indic (s.t_right t k) ∧
       indic (s.x_right p k) + indic (s.t_right t k) - 1 ≤ indic (s.z_right p t k)))

/-- Per-pizza score of the whole-pizza model (solver.py lines 154-158):
`score[k] = Σ_(p,t) pref[p,t] * z[p,t,k]`. -/
def wholeScore (P T : Nat) (prefs : Nat → Nat → Int) (s : WholeSol) (k : Nat) : Int :=
  ∑ p in Finset.range P, ∑ t in Finset.range T, prefs p t * indic (s.z p t k)

/-- Per-pizza score of the half-and-half model (solver.py lines 266-273):
`score[k] = Σ_(p,t) pref[p,t] * (z_left + z_right) + 2 * (1 - is_split[k])`. -/
def halfScore (P T : Nat) (prefs : Nat → Nat → Int) (s : HalfSol) (k : Nat) : Int :=
  (∑ p in Finset.range P, ∑ t in Finset.range T,
      prefs p t * (indic (s.z_left p t k) + indic (s.z_right p t k))) +
    2 * (1 - indic (s.is_split k))

/-- Modelled from the spec: the per-pizza score formula of spec §4.3,
`score[k] = Σ_(p,t) pref[p,t] · ((1−w)·pref_active[p,t,k] + w·topping_on[t,k])`,
which is absent from `solver.py` (no shareability blend is implemented
there).  Stated over ℚ since `w` is a ratio. -/
def specScore (P T : Nat) (prefs : Nat → Nat → Int) (w : ℚ)
    (pref_active : Nat → Nat → Nat → Bool) (topping_on : Nat → Nat → Bool)
    (k : Nat) : ℚ :=
  ∑ p in Finset.range P, ∑ t in Finset.range T,
    (prefs p t : ℚ) * ((1 - w) * (indic (pref_active p t k) : ℚ) +
      w * (indic (topping_on t k) : ℚ))

/-- Modelled from the spec: `w = shareability_weight / (K−1)` if `K > 1`,
else `w = 0` (spec §4.3). -/
def specW (f : ℚ) (K : Nat) : ℚ := if 1 < K then f / ((K : ℚ) - 1) else 0

/-- An output pizza record: `people`, `left_toppings`, `right_toppings`
(participants and toppings identified by their index in the order's
people/toppings lists). -/
structure Pizza where
  people : Finset Nat
  left_toppings : Finset Nat
  right_toppings : Finset Nat
deriving DecidableEq

/-- The all-empty pizza record (used only as a `getD` fallback). -/
def emptyPizza : Pizza := ⟨∅, ∅, ∅⟩

deriving instance DecidableEq for Except

/-- People assigned to pizza k in the whole-pizza extraction
(solver.py line 181: `x[p, k].value() > 0.5`). -/
def wholePeople (P : Nat) (s : WholeSol) (k : Nat) : Finset Nat :=
  (Finset.range P).filter (fun p => s.x p k)

/-- Toppings placed on pizza k in the whole-pizza extraction
(solver.py line 182). -/
def wholeTops (T : Nat) (s : WholeSol) (k : Nat) : Finset Nat :=
  (Finset.range T).filter (fun t => s.tv t k)

/-- `left_people` of pizza k in the half-mode extraction (solver.py line 294). -/
def halfLeftPeople (P : Nat) (s : HalfSol) (k : Nat) : Finset Nat :=
  (Finset.range P).filter (fun p => s.x_left p k)

/-- `right_people` of pizza k in the half-mode extraction (solver.py line 295). -/
def halfRightPeople (P : Nat) (s : HalfSol) (k : Nat) : Finset Nat :=
  (Finset.range P).filter (fun p => s.x_right p k)

/-- `left_toppings` of pizza k in the half-mode extraction (solver.py line 297). -/
def halfLeftTops (T : Nat) (s : HalfSol) (k : Nat) : Finset Nat :=
  (Finset.range T).filter (fun t => s.t_left t k)

/-- `right_toppings` of pizza k in the half-mode extraction (solver.py line 298). -/
def halfRightTops (T : Nat) (s : HalfSol) (k : Nat) : Finset Nat :=
  (Finset.range T).filter (fun t => s.t_right t k)

/-- The people set of pizza k in half mode:
`pizza.people.set(left_people + right_people)` (solver.py line 296). -/
def halfPeople (P : Nat) (s : HalfSol) (k : Nat) : Finset Nat :=
  halfLeftPeople P s k ∪ halfRightPeople P s k

/-- Solution extraction of `solve_whole` (solver.py lines 177-186): one
pizza per k, `right_toppings` left empty. -/
def extractWhole (P T K : Nat) (s : WholeSol) : List Pizza :=
  (List.range K).map (fun k => ⟨wholePeople P s k, wholeTops T s k, ∅⟩)

/-- Solution extraction of `solve_half` (solver.py lines 289-299). -/
def extractHalf (P T K : Nat) (s : HalfSol) : List Pizza :=
  (List.range K).map (fun k =>
    ⟨halfPeople P s k, halfLeftTops T s k, halfRightTops T s k⟩)

/-- The order fields the solver reads: `num_pizzas`, `pizza_mode`,
`optimization_mode`. -/
structure Order where
  num_pizzas : Nat
  pizza_mode : String
  optimization_mode : String

/-- The errors `solve` can raise: the typed `ValueError` for too many
pizzas (solver.py lines 85-88), the typed `ValueError` on a non-optimal
engine status (lines 172-174 and 285-287), and the untyped
`ZeroDivisionError` raised by `P // K` when `num_pizzas = 0`
(lines 141 and 249). -/
inductive SolveError where
  | invalidConfiguration : SolveError
  | solveFailure : Int → SolveError
  | zeroDivisionError : SolveError
deriving DecidableEq, Repr

/-- `solve_whole` as a function of the engine's reported status and
variable values (the MILP engine is an external collaborator; `status = 1`
is `pulp.LpStatusOptimal`).  Model construction divides by `K` at
line 141, so `K = 0` raises before the engine is invoked. -/
def solve_whole (K P T : Nat) (status : Int) (s : WholeSol) :
    Except SolveError (List Pizza) :=
  if K = 0 then .error .zeroDivisionError
  else if status ≠ 1 then .error (.solveFailure status)
  else .ok (extractWhole P T K s)

/-- `solve_half` as a function of the engine's reported status and
variable values; `K = 0` raises at line 249 before the engine is invoked. -/
def solve_half (K P T : Nat) (status : Int) (s : HalfSol) :
    Except SolveError (List Pizza) :=
  if K = 0 then .error .zeroDivisionError
  else if status ≠ 1 then .error (.solveFailure status)
  else .ok (extractHalf P T K s)

/-- `solve(order)` (solver.py lines 67-93): reject when
`num_pizzas > num_people`, then dispatch on `pizza_mode` (any mode other
than `'half'` runs the whole-pizza solver). -/
def solve (order : Order) (P T : Nat) (status : Int) (ws : WholeSol)
    (hs : HalfSol) : Except SolveError (List Pizza) :=
  if P < order.num_pizzas then .error .invalidConfiguration
  else if order.pizza_mode = "half" then solve_half order.num_pizzas P T status hs
  else solve_whole order.num_pizzas P T status ws

instance wholeFeasibleDecidable (P T K : Nat) (prefs : Nat → Nat → Int)
    (s : WholeSol) : Decidable (wholeFeasible P T K prefs s) := by
  unfold wholeFeasible; infer_instance

instance halfFeasibleDecidable (P T K : Nat) (prefs : Nat → Nat → Int)
    (s : HalfSol) : Decidable (halfFeasible P T K prefs s) := by
  unfold halfFeasible
  repeat' refine @instDecidableAnd _ _ ?_ ?_
  all_goals infer_instance

/-! Concrete orders, preference matrices and solutions used to evaluate
the model at specific inputs. -/

/-- Concrete whole-mode solution with every variable set (feasible for
P = T = K = 1 and all-neutral preferences). -/
def wsolAll : WholeSol := ⟨fun _ _ => true, fun _ _ => true, fun _ _ _ => true⟩

/-- Concrete half-mode solution: everyone and every topping on the left
half, no split (feasible for P = T = K = 1). -/
def hsolAll : HalfSol :=
  ⟨fun _ _ => true, fun _ _ => false, fun _ _ => true, fun _ _ => false,
   fun _ => false, fun _ _ _ => true, fun _ _ _ => false⟩

/-- All-neutral preference matrix. -/
def prefs0 : Nat → Nat → Int := fun _ _ => 0

/-- An order with zero pizzas (whole mode). -/
def orderK0 : Order := ⟨0, "whole", "maximize_likes"⟩

/-- An order with one pizza (whole mode). -/
def orderW : Order := ⟨1, "whole", "maximize_likes"⟩

/-- An order with two pizzas (whole mode). -/
def orderBig : Order := ⟨2, "whole", "maximize_likes"⟩

/-- Preferences for two people over six toppings: person 0 likes toppings
0-2 and dislikes 3-5; person 1 the reverse. -/
def prefs8 : Nat → Nat → Int := fun p t =>
  if p = 0 then (if t < 3 then LIKE else DISLIKE)
  else (if t < 3 then DISLIKE else LIKE)

/-- Half-mode solution for P = 2, T = 6, K = 1: person 0 on the left half
with toppings 0-2, person 1 on the right half with toppings 3-5, pizza
split. -/
def sol8 : HalfSol where
  x_left := fun p k => p == 0 && k == 0
  x_right := fun p k => p == 1 && k == 0
  t_left := fun t k => decide (t < 3) && k == 0
  t_right := fun t k => (decide (3 ≤ t) && decide (t < 6)) && k == 0
  is_split := fun k => k == 0
  z_left := fun p t k => (p == 0 && k == 0) && (decide (t < 3) && k == 0)
  z_right := fun p t k =>
    (p == 1 && k == 0) && ((decide (3 ≤ t) && decide (t < 6)) && k == 0)

/-- Preferences for two people over one topping: person 0 likes topping 0,
person 1 is unrated/neutral on it (the scenario of
`test_shareability_spreads_liked_topping_to_non_assigned_pizza`). -/
def prefs4 : Nat → Nat → Int := fun p _ => if p = 0 then LIKE else NEUTRAL

/-- Whole-mode solution for P = 2, T = 1, K = 2: person 0 alone on
pizza 0, person 1 alone on pizza 1, topping 0 on both pizzas. -/
def sol4 : WholeSol where
  x := fun p k => (p == 0 && k == 0) || (p == 1 && k == 1)
  tv := fun _ _ => true
  z := fun p _ k => (p == 0 && k == 0) || (p == 1 && k == 1)

/-! Helper lemmas. -/

lemma indic_nonneg (b : Bool) : 0 ≤ indic b := by
  cases b <;> simp [indic]

lemma indic_le_one (b : Bool) : indic b ≤ 1 := by
  cases b <;> simp [indic]

lemma indic_eq_one_iff (b : Bool) : indic b = 1 ↔ b = true := by
  cases b <;> simp [indic]

lemma sum_indic_eq_card (s : Finset Nat) (f : Nat → Bool) :
    (∑ i in s, indic (f i)) = ((s.filter (fun i => f i)).card : Int) := by
  rw [Finset.card_filter]
  push_cast
  refine Finset.sum_congr rfl (fun i _ => ?_)
  by_cases h : f i <;> simp [indic, h]

lemma ceil_div_le_div_add_one (P K : Nat) (hK : 0 < K) :
    ceil_div P K ≤ P / K + 1 := by
  unfold ceil_div
  calc (P + K - 1) / K ≤ (P + K) / K := Nat.div_le_div_right (by omega)
    _ = P / K + 1 := Nat.add_div_right P hK

/-- From a `Σ indic = 1` constraint: the filter over the range has exactly
one element. -/
lemma card_filter_of_sum_one {K : Nat} {f : Nat → Bool}
    (h : (∑ k in Finset.range K, indic (f k)) = 1) :
    ((Finset.range K).filter (fun k => f k)).card = 1 := by
  have := sum_indic_eq_card (Finset.range K) f
  rw [h] at this
  exact_mod_cast this.symm

/-! Consequences of the person-assignment constraints. -/

lemma whole_filter_card {P T K : Nat} {prefs : Nat → Nat → Int} {s : WholeSol}
    (h : wholeFeasible P T K prefs s) {p : Nat} (hp : p < P) :
    ((Finset.range K).filter (fun k => s.x p k)).card = 1 :=
  card_filter_of_sum_one (h.1 p hp)

lemma whole_exists_mem {P T K : Nat} {prefs : Nat → Nat → Int} {s : WholeSol}
    (h : wholeFeasible P T K prefs s) {p : Nat} (hp : p < P) :
    ∃ k, k < K ∧ s.x p k = true := by
  have hcard := whole_filter_card h hp
  have hpos : 0 < ((Finset.range K).filter (fun k => s.x p k)).card := by omega
  obtain ⟨k, hk⟩ := Finset.card_pos.mp hpos
  simp only [Finset.mem_filter, Finset.mem_range] at hk
  exact ⟨k, hk.1, hk.2⟩

lemma whole_unique {P T K : Nat} {prefs : Nat → Nat → Int} {s : WholeSol}
    (h : wholeFeasible P T K prefs s) {p : Nat} (hp : p < P) {k1 k2 : Nat}
    (hk1 : k1 < K) (hk2 : k2 < K) (h1 : s.x p k1 = true) (h2 : s.x p k2 = true) :
    k1 = k2 := by
  have hcard := whole_filter_card h hp
  refine Finset.card_le_one.mp (le_of_eq hcard) k1 ?_ k2 ?_ <;>
    simp [Finset.mem_filter, Finset.mem_range, *]

lemma half_sum_cards {P T K : Nat} {prefs : Nat → Nat → Int} {s : HalfSol}
    (h : halfFeasible P T K prefs s) {p : Nat} (hp : p < P) :
    ((Finset.range K).filter (fun k => s.x_left p k)).card +
      ((Finset.range K).filter (fun k => s.x_right p k)).card = 1 := by
  have h1 := h.1 p hp
  rw [Finset.sum_add_distrib, sum_indic_eq_card, sum_indic_eq_card] at h1
  exact_mod_cast h1

lemma half_either_card {P T K : Nat} {prefs : Nat → Nat → Int} {s : HalfSol}
    (h : halfFeasible P T K prefs s) {p : Nat} (hp : p < P) :
    ((Finset.range K).filter (fun k => s.x_left p k || s.x_right p k)).card = 1 := by
  have hsum := half_sum_cards h hp
  have hsubL : (Finset.range K).filter (fun k => s.x_left p k) ⊆
      (Finset.range K).filter (fun k => s.x_left p k || s.x_right p k) := by
    intro k hk
    simp only [Finset.mem_filter, Bool.or_eq_true] at hk ⊢
    exact ⟨hk.1, Or.inl hk.2⟩
  have hsubR : (Finset.range K).filter (fun k => s.x_right p k) ⊆
      (Finset.range K).filter (fun k => s.x_left p k || s.x_right p k) := by
    intro k hk
    simp only [Finset.mem_filter, Bool.or_eq_true] at hk ⊢
    exact ⟨hk.1, Or.inr hk.2⟩
  have hsubU : (Finset.range K).filter (fun k => s.x_left p k || s.x_right p k) ⊆
      (Finset.range K).filter (fun k => s.x_left p k) ∪
        (Finset.range K).filter (fun k => s.x_right p k) := by
    intro k hk
    simp only [Finset.mem_filter, Finset.mem_range, Bool.or_eq_true,
      Finset.mem_union] at hk ⊢
    tauto
  have h2 := Finset.card_le_card hsubL
  have h3 := Finset.card_le_card hsubR
  have h4 := le_trans (Finset.card_le_card hsubU) (Finset.card_union_le _ _)
  omega

lemma half_exists_mem {P T K : Nat} {prefs : Nat → Nat → Int} {s : HalfSol}
    (h : halfFeasible P T K prefs s) {p : Nat} (hp : p < P) :
    ∃ k, k < K ∧ (s.x_left p k = true ∨ s.x_right p k = true) := by
  have hcard := half_either_card h hp
  have hpos : 0 < ((Finset.range K).filter
      (fun k => s.x_left p k || s.x_right p k)).card := by omega
  obtain ⟨k, hk⟩ := Finset.card_pos.mp hpos
  simp only [Finset.mem_filter, Finset.mem_range, Bool.or_eq_true] at hk
  exact ⟨k, hk.1, hk.2⟩

lemma half_unique {P T K : Nat} {prefs : Nat → Nat → Int} {s : HalfSol}
    (h : halfFeasible P T K prefs s) {p : Nat} (hp : p < P) {k1 k2 : Nat}
    (hk1 : k1 < K) (hk2 : k2 < K)
    (h1 : s.x_left p k1 = true ∨ s.x_right p k1 = true)
    (h2 : s.x_left p k2 = true ∨ s.x_right p k2 = true) : k1 = k2 := by
  have hcard := half_either_card h hp
  refine Finset.card_le_one.mp (le_of_eq hcard) k1 ?_ k2 ?_ <;>
    simp only [Finset.mem_filter, Finset.mem_range, Bool.or_eq_true] <;> tauto

lemma half_not_both {P T K : Nat} {prefs : Nat → Nat → Int} {s : HalfSol}
    (h : halfFeasible P T K prefs s) {p : Nat} (hp : p < P) {k : Nat}
    (hk : k < K) : ¬(s.x_left p k = true ∧ s.x_right p k = true) := by
  rintro ⟨hl, hr⟩
  have hsum := half_sum_cards h hp
  have h1 : 0 < ((Finset.range K).filter (fun k => s.x_left p k)).card :=
    Finset.card_pos.mpr ⟨k, by simp [Finset.mem_filter, Finset.mem_range, hk, hl]⟩
  have h2 : 0 < ((Finset.range K).filter (fun k => s.x_right p k)).card :=
    Finset.card_pos.mpr ⟨k, by simp [Finset.mem_filter, Finset.mem_range, hk, hr]⟩
  omega

lemma wholePeople_card {P T K : Nat} {prefs : Nat → Nat → Int} {s : WholeSol}
    (h : wholeFeasible P T K prefs s) {k : Nat} (hk : k < K) :
    P / K ≤ (wholePeople P s k).card ∧ (wholePeople P s k).card ≤ ceil_div P K := by
  obtain ⟨hlo, hhi⟩ := h.2.2.2.1 k hk
  rw [sum_indic_eq_card] at hlo hhi
  unfold wholePeople
  exact ⟨by exact_mod_cast hlo, by exact_mod_cast hhi⟩

lemma halfPeople_disjoint {P T K : Nat} {prefs : Nat → Nat → Int} {s : HalfSol}
    (h : halfFeasible P T K prefs s) {k : Nat} (hk : k < K) :
    Disjoint (halfLeftPeople P s k) (halfRightPeople P s k) := by
  rw [Finset.disjoint_left]
  intro p hpl hpr
  simp only [halfLeftPeople, halfRightPeople, Finset.mem_filter,
    Finset.mem_range] at hpl hpr
  exact half_not_both h hpl.1 hk ⟨hpl.2, hpr.2⟩

lemma halfPeople_card {P T K : Nat} {prefs : Nat → Nat → Int} {s : HalfSol}
    (h : halfFeasible P T K prefs s) {k : Nat} (hk : k < K) :
    P / K ≤ (halfPeople P s k).card ∧ (halfPeople P s k).card ≤ ceil_div P K := by
  obtain ⟨hlo, hhi⟩ := h.2.2.2.2.1 k hk
  rw [Finset.sum_add_distrib, sum_indic_eq_card, sum_indic_eq_card] at hlo hhi
  have hcard : (halfPeople P s k).card =
      (halfLeftPeople P s k).card + (halfRightPeople P s k).card := by
    unfold halfPeople
    exact Finset.card_union_of_disjoint (halfPeople_disjoint h hk)
  unfold halfLeftPeople halfRightPeople at hcard
  rw [hcard]
  exact ⟨by exact_mod_cast hlo, by exact_mod_cast hhi⟩

lemma extractWhole_getD {P T K : Nat} {s : WholeSol} {k : Nat} (hk : k < K) :
    (extractWhole P T K s).getD k emptyPizza =
      ⟨wholePeople P s k, wholeTops T s k, ∅⟩ := by
  unfold extractWhole
  rw [List.getD_eq_getD_get?, List.get?_map, List.get?_range hk]
  rfl

lemma extractHalf_getD {P T K : Nat} {s : HalfSol} {k : Nat} (hk : k < K) :
    (extractHalf P T K s).getD k emptyPizza =
      ⟨halfPeople P s k, halfLeftTops T s k, halfRightTops T s k⟩ := by
  unfold extractHalf
  rw [List.getD_eq_getD_get?, List.get?_map, List.get?_range hk]
  rfl

/-! Claim theorems. -/

/-- C1: for every order accepted by solve that returns a list of pizzas,
no participant is placed on a pizza (in whole mode, or on a half of a
pizza in half mode) whose topping set contains a topping for which that
participant's resolved preference is ALLERGY.  An accepted solution is one
satisfying every hard constraint of the constructed model. -/
theorem C1_no_allergy_on_pizza :
    (∀ (P T K : Nat) (prefs : Nat → Nat → Int) (s : WholeSol),
      wholeFeasible P T K prefs s → ∀ k < K,
        ∀ p ∈ wholePeople P s k, ∀ t ∈ wholeTops T s k, prefs p t ≠ ALLERGY) ∧
    (∀ (P T K : Nat) (prefs : Nat → Nat → Int) (s : HalfSol),
      halfFeasible P T K prefs s → ∀ k < K,
        (∀ p ∈ halfLeftPeople P s k, ∀ t ∈ halfLeftTops T s k,
          prefs p t ≠ ALLERGY) ∧
        (∀ p ∈ halfRightPeople P s k, ∀ t ∈ halfRightTops T s k,
          prefs p t ≠ ALLERGY)) := by
  constructor
  · intro P T K prefs s h k hk p hp t ht hall
    simp only [wholePeople, Finset.mem_filter, Finset.mem_range] at hp
    simp only [wholeTops, Finset.mem_filter, Finset.mem_range] at ht
    have hc := h.2.1 p hp.1 t ht.1 hall k hk
    simp [indic, hp.2, ht.2] at hc
  · intro P T K prefs s h k hk
    constructor
    · intro p hp t ht hall
      simp only [halfLeftPeople, Finset.mem_filter, Finset.mem_range] at hp
      simp only [halfLeftTops, Finset.mem_filter, Finset.mem_range] at ht
      have hc := (h.2.2.1 p hp.1 t ht.1 hall k hk).1
      simp [indic, hp.2, ht.2] at hc
    · intro p hp t ht hall
      simp only [halfRightPeople, Finset.mem_filter, Finset.mem_range] at hp
      simp only [halfRightTops, Finset.mem_filter, Finset.mem_range] at ht
      have hc := (h.2.2.1 p hp.1 t ht.1 hall k hk).2
      simp [indic, hp.2, ht.2] at hc

/-- C1 witness: a concrete feasible whole-mode solution, evaluated. -/
theorem C1_no_allergy_on_pizza_witness :
    wholeFeasible 1 1 1 prefs0 wsolAll ∧ prefs0 0 0 ≠ ALLERGY :=
  ⟨by decide, C1_no_allergy_on_pizza.1 1 1 1 prefs0 wsolAll (by decide)
    0 (by decide) 0 (by decide) 0 (by decide)⟩

/-- C2: for every order for which solve returns successfully, each input
participant appears in the participant set of exactly one of the K
returned pizzas: the union of the pizzas' participant sets equals the
input participant set and the sets are pairwise disjoint. -/
theorem C2_exact_partition :
    (∀ (P T K : Nat) (prefs : Nat → Nat → Int) (s : WholeSol),
      wholeFeasible P T K prefs s →
        (Finset.range K).biUnion (fun k => wholePeople P s k) = Finset.range P ∧
        ∀ k1 < K, ∀ k2 < K, k1 ≠ k2 →
          Disjoint (wholePeople P s k1) (wholePeople P s k2)) ∧
    (∀ (P T K : Nat) (prefs : Nat → Nat → Int) (s : HalfSol),
      halfFeasible P T K prefs s →
        (Finset.range K).biUnion (fun k => halfPeople P s k) = Finset.range P ∧
        ∀ k1 < K, ∀ k2 < K, k1 ≠ k2 →
          Disjoint (halfPeople P s k1) (halfPeople P s k2)) := by
  constructor
  · intro P T K prefs s h
    constructor
    · ext p
      simp only [Finset.mem_biUnion, wholePeople, Finset.mem_filter,
        Finset.mem_range]
      constructor
      · rintro ⟨k, _, hp, _⟩
        exact hp
      · intro hp
        obtain ⟨k, hk, hx⟩ := whole_exists_mem h hp
        exact ⟨k, hk, hp, hx⟩
    · intro k1 hk1 k2 hk2 hne
      rw [Finset.disjoint_left]
      intro p hp1 hp2
      simp only [wholePeople, Finset.mem_filter, Finset.mem_range] at hp1 hp2
      exact hne (whole_unique h hp1.1 hk1 hk2 hp1.2 hp2.2)
  · intro P T K prefs s h
    constructor
    · ext p
      simp only [Finset.mem_biUnion, halfPeople, halfLeftPeople, halfRightPeople,
        Finset.mem_union, Finset.mem_filter, Finset.mem_range]
      constructor
      · rintro ⟨k, _, hp⟩
        rcases hp with hp | hp
        · exact hp.1
        · exact hp.1
      · intro hp
        obtain ⟨k, hk, hx⟩ := half_exists_mem h hp
        rcases hx with hx | hx
        · exact ⟨k, hk, Or.inl ⟨hp, hx⟩⟩
        · exact ⟨k, hk, Or.inr ⟨hp, hx⟩⟩
    · intro k1 hk1 k2 hk2 hne
      rw [Finset.disjoint_left]
      intro p hp1 hp2
      simp only [halfPeople, halfLeftPeople, halfRightPeople, Finset.mem_union,
        Finset.mem_filter, Finset.mem_range] at hp1 hp2
      have hp : p < P := by rcases hp1 with h1 | h1 <;> exact h1.1
      refine hne (half_unique h hp hk1 hk2 ?_ ?_)
      · rcases hp1 with h1 | h1
        · exact Or.inl h1.2
        · exact Or.inr h1.2
      · rcases hp2 with h2 | h2
        · exact Or.inl h2.2
        · exact Or.inr h2.2

/-- C2 witness: a concrete feasible whole-mode solution, evaluated. -/
theorem C2_exact_partition_witness :
    wholeFeasible 1 1 1 prefs0 wsolAll ∧
      (Finset.range 1).biUnion (fun k => wholePeople 1 wsolAll k) =
        Finset.range 1 :=
  ⟨by decide, (C2_exact_partition.1 1 1 1 prefs0 wsolAll (by decide)).1⟩

/-- C7: for every solved order with P participants and K pizzas, each
returned pizza's participant count lies between P / K rounded down and
P / K rounded up, so the largest and smallest pizza differ by at most one
participant. -/
theorem C7_balanced_sizes :
    (∀ (P T K : Nat) (prefs : Nat → Nat → Int) (s : WholeSol),
      wholeFeasible P T K prefs s → ∀ k < K,
        (P / K ≤ (wholePeople P s k).card ∧
          (wholePeople P s k).card ≤ ceil_div P K) ∧
        ∀ j < K, (wholePeople P s k).card ≤ (wholePeople P s j).card + 1) ∧
    (∀ (P T K : Nat) (prefs : Nat → Nat → Int) (s : HalfSol),
      halfFeasible P T K prefs s → ∀ k < K,
        (P / K ≤ (halfPeople P s k).card ∧
          (halfPeople P s k).card ≤ ceil_div P K) ∧
        ∀ j < K, (halfPeople P s k).card ≤ (halfPeople P s j).card + 1) := by
  constructor
  · intro P T K prefs s h k hk
    refine ⟨wholePeople_card h hk, ?_⟩
    intro j hj
    have h1 := (wholePeople_card h hk).2
    have h2 := (wholePeople_card h hj).1
    have h3 := ceil_div_le_div_add_one P K (by omega)
    omega
  · intro P T K prefs s h k hk
    refine ⟨halfPeople_card h hk, ?_⟩
    intro j hj
    have h1 := (halfPeople_card h hk).2
    have h2 := (halfPeople_card h hj).1
    have h3 := ceil_div_le_div_add_one P K (by omega)
    omega

/-- C7 witness: a concrete feasible whole-mode solution, evaluated. -/
theorem C7_balanced_sizes_witness :
    wholeFeasible 1 1 1 prefs0 wsolAll ∧
      (1 / 1 ≤ (wholePeople 1 wsolAll 0).card ∧
        (wholePeople 1 wsolAll 0).card ≤ ceil_div 1 1) :=
  ⟨by decide, (C7_balanced_sizes.1 1 1 1 prefs0 wsolAll (by decide)
    0 (by decide)).1⟩

/-- C10: for every solved half-mode order and every pizza index k, if the
pizza's split indicator variable is 0 in the accepted solution then that
pizza's right half is empty: no participant is assigned to its right half
and its right_toppings set is empty. -/
theorem C10_unsplit_right_half_empty :
    ∀ (P T K : Nat) (prefs : Nat → Nat → Int) (s : HalfSol),
      halfFeasible P T K prefs s → ∀ k < K, s.is_split k = false →
        halfRightPeople P s k = ∅ ∧
        ((extractHalf P T K s).getD k emptyPizza).right_toppings = ∅ := by
  intro P T K prefs s h k hk hsplit
  have hxr : ∀ p < P, s.x_right p k = false := by
    intro p hp
    have hc := (h.2.1 k hk).1 p hp
    rw [hsplit] at hc
    simp only [indic] at hc
    by_cases hb : s.x_right p k
    · simp [hb] at hc
    · simpa using hb
  have htr : ∀ t < T, s.t_right t k = false := by
    intro t ht
    have hc := (h.2.1 k hk).2 t ht
    rw [hsplit] at hc
    simp only [indic] at hc
    by_cases hb : s.t_right t k
    · simp [hb] at hc
    · simpa using hb
  constructor
  · rw [Finset.eq_empty_iff_forall_not_mem]
    intro p hp
    simp only [halfRightPeople, Finset.mem_filter, Finset.mem_range] at hp
    rw [hxr p hp.1] at hp
    exact Bool.false_ne_true hp.2
  · rw [extractHalf_getD hk]
    rw [Finset.eq_empty_iff_forall_not_mem]
    intro t ht
    simp only [halfRightTops, Finset.mem_filter, Finset.mem_range] at ht
    rw [htr t ht.1] at ht
    exact Bool.false_ne_true ht.2

/-- C10 witness: a concrete feasible half-mode solution with no split,
evaluated. -/
theorem C10_unsplit_right_half_empty_witness :
    halfFeasible 1 1 1 prefs0 hsolAll ∧ halfRightPeople 1 hsolAll 0 = ∅ :=
  ⟨by decide, (C10_unsplit_right_half_empty 1 1 1 prefs0 hsolAll (by decide)
    0 (by decide) (by rfl)).1⟩

/-- C8 counterexample: an accepted half-mode solution (P = 2, T = 6,
K = 1) in which the single returned pizza carries six toppings — three on
each half — exceeding the claimed per-pizza maximum of 3. -/
theorem C8_half_mode_six_toppings :
    halfFeasible 2 6 1 prefs8 sol8 ∧
    ¬((((extractHalf 2 6 1 sol8).getD 0 emptyPizza).left_toppings ∪
        ((extractHalf 2 6 1 sol8).getD 0 emptyPizza).right_toppings).card ≤ 3) := by
  constructor
  · decide
  · decide

/-- C8 (amended): every returned pizza carries at most 3 toppings per
pizza in whole mode, and at most 3 toppings per half in half mode (the
cap is the hard-coded constant 3; a split half-mode pizza may carry up to
6 toppings in total). -/
theorem C8_topping_cap :
    (∀ (P T K : Nat) (prefs : Nat → Nat → Int) (s : WholeSol),
      wholeFeasible P T K prefs s → ∀ k < K,
        (((extractWhole P T K s).getD k emptyPizza).left_toppings ∪
          ((extractWhole P T K s).getD k emptyPizza).right_toppings).card ≤ 3) ∧
    (∀ (P T K : Nat) (prefs : Nat → Nat → Int) (s : HalfSol),
      halfFeasible P T K prefs s → ∀ k < K,
        ((extractHalf P T K s).getD k emptyPizza).left_toppings.card ≤ 3 ∧
        ((extractHalf P T K s).getD k emptyPizza).right_toppings.card ≤ 3) := by
  constructor
  · intro P T K prefs s h k hk
    rw [extractWhole_getD hk]
    have hc := h.2.2.1 k hk
    rw [sum_indic_eq_card] at hc
    have : ((Finset.range T).filter (fun t => s.tv t k)).card ≤ 3 := by
      exact_mod_cast hc
    simpa [wholeTops] using this
  · intro P T K prefs s h k hk
    rw [extractHalf_getD hk]
    obtain ⟨hl, hr⟩ := h.2.2.2.1 k hk
    rw [sum_indic_eq_card] at hl hr
    constructor
    · have : ((Finset.range T).filter (fun t => s.t_left t k)).card ≤ 3 := by
        exact_mod_cast hl
      simpa [halfLeftTops] using this
    · have : ((Finset.range T).filter (fun t => s.t_right t k)).card ≤ 3 := by
        exact_mod_cast hr
      simpa [halfRightTops] using this

/-- C8 witness: a concrete feasible solution in each mode, evaluated. -/
theorem C8_topping_cap_witness :
    wholeFeasible 1 1 1 prefs0 wsolAll ∧
      (((extractWhole 1 1 1 wsolAll).getD 0 emptyPizza).left_toppings ∪
        ((extractWhole 1 1 1 wsolAll).getD 0 emptyPizza).right_toppings).card ≤ 3 :=
  ⟨by decide, C8_topping_cap.1 1 1 1 prefs0 wsolAll (by decide) 0 (by decide)⟩

/-- C3 counterexample: the order with num_pizzas = 0 and one participant
has K < 1, yet solve does not reject it with the typed
invalid-configuration error; model construction begins and the call dies
with the untyped ZeroDivisionError raised by `P // K`. -/
theorem C3_zero_pizzas_not_validated :
    orderK0.num_pizzas < 1 ∧
    solve orderK0 1 1 1 wsolAll hsolAll =
      Except.error SolveError.zeroDivisionError ∧
    solve orderK0 1 1 1 wsolAll hsolAll ≠
      Except.error SolveError.invalidConfiguration := by
  refine ⟨by decide, by decide, by decide⟩

/-- C3 (amended): solve rejects an order with the typed
invalid-configuration error exactly when K > number of participants; that
check happens before any model is constructed and before any engine call.
K < 1 is not validated: an order with K = 0 proceeds into model
construction and fails with an untyped division-by-zero when the balance
bounds `P // K` are computed, before the engine is invoked. -/
theorem C3_validation_exactly_too_many_pizzas
    (order : Order) (P T : Nat) (status : Int) (ws : WholeSol) (hs : HalfSol) :
    solve order P T status ws hs = Except.error SolveError.invalidConfiguration ↔
      P < order.num_pizzas := by
  unfold solve solve_whole solve_half
  by_cases h1 : P < order.num_pizzas
  · simp [h1]
  · by_cases h2 : order.pizza_mode = "half" <;>
      by_cases h3 : order.num_pizzas = 0 <;>
      by_cases h4 : status = 1 <;>
      simp [h1, h2, h3, h4]

/-- C3 amended-claim witness: solve rejects a two-pizza order with one
participant. -/
theorem C3_validation_witness :
    solve orderBig 1 1 1 wsolAll hsolAll =
      Except.error SolveError.invalidConfiguration :=
  (C3_validation_exactly_too_many_pizzas orderBig 1 1 1 wsolAll hsolAll).mpr
    (by decide)

/-- C6: for every order on which the solver engine reports any status
other than optimal (pulp status 1), solve raises the typed solve-failure
error and no pizza is created; pizzas are only created after a successful
status, all K together. -/
theorem C6_solve_failure_no_pizzas
    (order : Order) (P T : Nat) (status : Int) (ws : WholeSol) (hs : HalfSol)
    (hK1 : 1 ≤ order.num_pizzas) (hKP : order.num_pizzas ≤ P) :
    (status ≠ 1 →
      solve order P T status ws hs =
        Except.error (SolveError.solveFailure status)) ∧
    (status = 1 → ∃ l, solve order P T status ws hs = Except.ok l ∧
      l.length = order.num_pizzas) := by
  unfold solve solve_whole solve_half
  have h1 : ¬ P < order.num_pizzas := by omega
  have h0 : ¬ order.num_pizzas = 0 := by omega
  constructor
  · intro hst
    by_cases h2 : order.pizza_mode = "half" <;> simp [h1, h0, h2, hst]
  · intro hst
    by_cases h2 : order.pizza_mode = "half"
    · refine ⟨extractHalf P T order.num_pizzas hs, ?_, ?_⟩
      · simp [h1, h0, h2, hst]
      · simp [extractHalf]
    · refine ⟨extractWhole P T order.num_pizzas ws, ?_, ?_⟩
      · simp [h1, h0, h2, hst]
      · simp [extractWhole]

/-- C6 witness: a failing status on a valid one-pizza order, evaluated. -/
theorem C6_solve_failure_no_pizzas_witness :
    1 ≤ orderW.num_pizzas ∧ orderW.num_pizzas ≤ 1 ∧
    solve orderW 1 1 0 wsolAll hsolAll =
      Except.error (SolveError.solveFailure 0) :=
  ⟨by decide, by decide,
    (C6_solve_failure_no_pizzas orderW 1 1 0 wsolAll hsolAll (by decide)
      (by decide)).1 (by decide)⟩

/-- C9: for every order whose pizza mode is not "half" (whole-pizza mode,
the dispatch default for any other mode value), every pizza returned by
solve has an empty right_toppings set. -/
theorem C9_whole_mode_right_toppings_empty
    (order : Order) (P T : Nat) (status : Int) (ws : WholeSol) (hs : HalfSol)
    (l : List Pizza) (hok : solve order P T status ws hs = Except.ok l)
    (hmode : order.pizza_mode ≠ "half") :
    ∀ pz ∈ l, pz.right_toppings = ∅ := by
  unfold solve at hok
  by_cases h1 : P < order.num_pizzas
  · simp [h1] at hok
  · rw [if_neg h1, if_neg hmode] at hok
    unfold solve_whole at hok
    by_cases h0 : order.num_pizzas = 0
    · simp [h0] at hok
    · rw [if_neg h0] at hok
      by_cases hst : status ≠ 1
      · simp [hst] at hok
      · rw [if_neg hst] at hok
        have hl : extractWhole P T order.num_pizzas ws = l :=
          Except.ok.inj hok
        intro pz hpz
        rw [← hl] at hpz
        simp only [extractWhole, List.mem_map] at hpz
        obtain ⟨k, _, rfl⟩ := hpz
        rfl

/-- C9 witness: a successful whole-mode solve, evaluated. -/
theorem C9_whole_mode_right_toppings_empty_witness :
    solve orderW 1 1 1 wsolAll hsolAll =
      Except.ok (extractWhole 1 1 1 wsolAll) ∧
    ((extractWhole 1 1 1 wsolAll).headD emptyPizza).right_toppings = ∅ :=
  ⟨by decide,
    C9_whole_mode_right_toppings_empty orderW 1 1 1 wsolAll hsolAll
      (extractWhole 1 1 1 wsolAll) (by decide) (by decide)
      ((extractWhole 1 1 1 wsolAll).headD emptyPizza) (by decide)⟩

/-- C4 (code evaluated at the failing input): in the scenario of
`test_shareability_spreads_liked_topping_to_non_assigned_pizza` — two
people, one topping liked by person 0 and unrated by person 1, K = 2,
shareability weight 0.8, person 1 alone on pizza 1 with the topping
present there — the code's per-pizza score expression values pizza 1 at 0
(it contains no shareability term at all), while the spec's formula with
w = 0.8/(2−1) values it at 4/5.  The two score expressions differ, and
the order's shareability weight never influences the code's objective. -/
theorem C4_no_shareability_in_code_score :
    wholeFeasible 2 1 2 prefs4 sol4 ∧
    wholeScore 2 1 prefs4 sol4 1 = 0 ∧
    specW (4/5) 2 = 4/5 ∧
    specScore 2 1 prefs4 (specW (4/5) 2) sol4.z sol4.tv 1 = 4/5 := by
  refine ⟨by decide, by decide, ?_, ?_⟩
  · norm_num [specW]
  · norm_num [specScore, specW, Finset.sum_range_succ, Finset.sum_range_zero,
      prefs4, sol4, indic, LIKE, NEUTRAL]

/-- C5 counterexample: with one person (unrated-is-dislike off) and one
topping and no stored preference, the resolved pair is NEUTRAL yet it is
present in the output map (the claim says NEUTRAL pairs are omitted from
the domain); and an ALLERGY preference value (−2) is multiplied into the
objective's score expression as a numeric coefficient (the claim says
ALLERGY pairs never carry a numeric score in the objective). -/
theorem C5_dense_output_counterexample :
    ((0, 0), NEUTRAL) ∈
      _build_prefs [⟨7, false⟩] [5] (fun _ _ => (none : Option Int)) ∧
    wholeScore 1 1 (fun _ _ => ALLERGY) wsolAll 0 = ALLERGY := by
  constructor
  · decide
  · decide

/-- C5 (amended): the resolution rule is as claimed — the explicit stored
preference if one exists, otherwise DISLIKE when the person's
unrated-is-dislike flag is set and NEUTRAL otherwise — but the output is
a dense map whose domain is all (p_idx, t_idx) pairs: NEUTRAL pairs are
present with value 0 and ALLERGY pairs with value −2, and the score
expression includes ALLERGY pairs with coefficient −2 (their activation
variables being forced to 0 only by the hard constraints). -/
theorem C5_resolution_and_dense_domain (people : List Person)
    (toppings : List Nat) (existing : Nat → Nat → Option Int) (p t : Nat)
    (hp : p < people.length) (ht : t < toppings.length) :
    ((p, t),
      (existing (people.getD p ⟨0, false⟩).id (toppings.getD t 0)).getD
        (if (people.getD p ⟨0, false⟩).unrated_is_dislike then DISLIKE
         else NEUTRAL))
      ∈ _build_prefs people toppings existing ∧
    (_build_prefs people toppings existing).length =
      people.length * toppings.length := by
  constructor
  · unfold _build_prefs resolvePref defaultPref
    rw [List.mem_flatten]
    refine ⟨_, List.mem_map.mpr ⟨p, List.mem_range.mpr hp, rfl⟩, ?_⟩
    exact List.mem_map.mpr ⟨t, List.mem_range.mpr ht, rfl⟩
  · unfold _build_prefs
    simp [List.length_flatten, List.map_map, Function.comp_def,
      List.map_const', List.sum_replicate, smul_eq_mul]

/-- C5 amended-claim witness: an unrated pair under unrated-is-dislike
resolves to DISLIKE and is present in the map. -/
theorem C5_resolution_and_dense_domain_witness :
    0 < ([⟨7, true⟩] : List Person).length ∧
    ((0, 0), DISLIKE) ∈
      _build_prefs [⟨7, true⟩] [5] (fun _ _ => (none : Option Int)) :=
  ⟨by decide,
    (C5_resolution_and_dense_domain [⟨7, true⟩] [5]
      (fun _ _ => (none : Option Int)) 0 0 (by decide) (by decide)).1⟩
